import Mathlib

/-!
Verification of the similarity / plagiarism-detection core of the repository,
a shallow embedding of src/components/plagiarism/SimilarityVisualization.tsx.

JS strings are modelled as lists of characters, JS numbers as exact rationals,
and JS arrays as lists.  All functions keep the names of the source where Lean
allows it.
-/

set_option maxHeartbeats 1000000

namespace Plagiarism

/-- JS `str.trim()`: strip leading and trailing whitespace. -/
def trimChars (l : List Char) : List Char :=
  ((l.dropWhile Char.isWhitespace).reverse.dropWhile Char.isWhitespace).reverse

/-- JS `text.split(chr 10)` (lines 82-84, 196-197): split at every newline,
keeping empty pieces; on the empty string it yields one empty piece. -/
def splitNl : List Char → List (List Char)
  | [] => [[]]
  | c :: cs =>
    if c = '\n' then [] :: splitNl cs
    else
      match splitNl cs with
      | [] => [[c]]
      | l :: ls => (c :: l) :: ls

/-- One step of collapsing whitespace runs; the flag records whether the
previous character was whitespace (so the run emits a single space). -/
def collapseWsAux : List Char → Bool → List Char
  | [], _ => []
  | c :: cs, prevWs =>
    if c.isWhitespace then
      if prevWs then collapseWsAux cs true else ' ' :: collapseWsAux cs true
    else c :: collapseWsAux cs false

/-- JS `normalize` (lines 28-30): trim, collapse each whitespace run to a single
space, lowercase. -/
def normalize (l : List Char) : List Char :=
  (collapseWsAux (trimChars l) false).map Char.toLower

/-- The character replacement of the regex `[^a-z0-9 and whitespace]` by a
space (line 35): keep lowercase letters, digits and whitespace. -/
def keepAlnum (c : Char) : Char :=
  if ('a' ≤ c ∧ c ≤ 'z') ∨ ('0' ≤ c ∧ c ≤ '9') ∨ c.isWhitespace then c else ' '

/-- Split into maximal non-whitespace runs, accumulating the current run in
reverse.  JS split on a whitespace-run regex can also produce empty tokens at
the two ends, but those have length 0 and are removed by the length filter of
`tokenize`, so they are not modelled. -/
def wsTokensAux : List Char → List Char → List (List Char)
  | [], acc => if acc = [] then [] else [acc.reverse]
  | c :: cs, acc =>
    if c.isWhitespace then
      if acc = [] then wsTokensAux cs [] else acc.reverse :: wsTokensAux cs []
    else wsTokensAux cs (c :: acc)

/-- JS `tokenize` (lines 33-38): lowercase, replace special characters by
spaces, split on whitespace, drop tokens of length at most 2. -/
def tokenize (l : List Char) : List (List Char) :=
  (wsTokensAux ((l.map Char.toLower).map keepAlnum) []).filter (fun t => 2 < t.length)

/-- JS `calculateTokenSimilarity` (lines 41-49): Jaccard similarity of the two
deduplicated token sets; 0 when the union is empty. -/
def calculateTokenSimilarity (tokens1 tokens2 : List (List Char)) : ℚ :=
  let set1 := tokens1.dedup
  let set2 := tokens2.dedup
  let inter := set1.filter (fun x => decide (x ∈ set2))
  let union := (set1 ++ set2).dedup
  if 0 < union.length then (inter.length : ℚ) / (union.length : ℚ) else 0

/-- JS `haystack.includes(needle)`: substring containment. -/
def strIncludes : List Char → List Char → Bool
  | [], needle => needle.isEmpty
  | c :: t, needle => needle.isPrefixOf (c :: t) || strIncludes t needle

/-- JS `calculateExactSimilarity` (lines 52-64): 1 on identical normalized
strings, ratio of lengths when one contains the other, 0 otherwise. -/
def calculateExactSimilarity (str1 str2 : List Char) : ℚ :=
  let norm1 := normalize str1
  let norm2 := normalize str2
  if norm1 = norm2 then 1
  else if strIncludes norm1 norm2 || strIncludes norm2 norm1 then
    ((min norm1.length norm2.length : ℕ) : ℚ) / ((max norm1.length norm2.length : ℕ) : ℚ)
  else 0

/-- The dynamic threshold selection of `highlightMatches` (lines 66-79). -/
def dynamicThreshold (overallScore : ℚ) : ℚ :=
  if 0.8 ≤ overallScore then 0.2
  else if 0.6 ≤ overallScore then 0.3
  else if 0.4 ≤ overallScore then 0.4
  else 0.5

/-- The inner loop of STEP 1 of `highlightMatches` (lines 94-105): the current
trimmed line matches when some other line is non-empty after trimming and has
exact-or-containment similarity at least 0.8. -/
def lineMatchesOther (trimmedLine : List Char) (otherLines : List (List Char)) : Bool :=
  otherLines.any (fun otherLine =>
    let trimmedOther := trimChars otherLine
    !trimmedOther.isEmpty && decide ((0.8 : ℚ) ≤ calculateExactSimilarity trimmedLine trimmedOther))

/-- The outer loop of STEP 1 of `highlightMatches` (lines 89-106), collecting
the indices added to the plagiarized-line set. -/
def directMatchAux (otherLines : List (List Char)) : List (List Char) → Nat → List Nat
  | [], _ => []
  | line :: rest, idx =>
    let trimmedLine := trimChars line
    if trimmedLine.isEmpty then directMatchAux otherLines rest (idx + 1)
    else if lineMatchesOther trimmedLine otherLines then
      idx :: directMatchAux otherLines rest (idx + 1)
    else directMatchAux otherLines rest (idx + 1)

/-- STEP 1 of `highlightMatches`: direct line-by-line matching between the text
and the other submission. -/
def directPlagiarizedLines (text other : List Char) : List Nat :=
  directMatchAux (splitNl other) (splitNl text) 0

/-- One row entry loop of the Levenshtein matrix (lines 177-189): walks the
columns, carrying the remaining entries of the previous row, the diagonal
entry and the entry to the left. -/
def levRowAux (c : Char) : List Char → List Nat → Nat → Nat → List Nat
  | [], _, _, _ => []
  | _ :: _, [], _, _ => []
  | x :: xs, up :: ps, diag, left =>
    let cur := if c = x then diag else min (diag + 1) (min (left + 1) (up + 1))
    cur :: levRowAux c xs ps up cur

/-- Row i of the Levenshtein matrix from row i-1; the first column is i. -/
def levRow (c : Char) (str1 : List Char) (i : Nat) (prev : List Nat) : List Nat :=
  i :: levRowAux c str1 (prev.drop 1) (prev.headD 0) i

/-- The outer row loop of the Levenshtein matrix (lines 177-189). -/
def levRows (str1 : List Char) : List Char → Nat → List Nat → List Nat
  | [], _, row => row
  | c :: cs, i, row => levRows str1 cs (i + 1) (levRow c str1 (i + 1) row)

/-- JS `levenshteinDistance` (lines 166-192): dynamic program over the matrix
whose row 0 is 0..n; the result is the entry at row str2.length, column
str1.length. -/
def levenshteinDistance (str1 str2 : List Char) : Nat :=
  (levRows str1 str2 0 (List.range (str1.length + 1))).getLastD 0

/-- JS `calculateLineSimilarity` (lines 155-163). -/
def calculateLineSimilarity (str1 str2 : List Char) : ℚ :=
  let longer := if str2.length < str1.length then str1 else str2
  let shorter := if str2.length < str1.length then str2 else str1
  if longer.length = 0 then 1
  else ((longer.length : ℚ) - (levenshteinDistance longer shorter : ℚ)) / (longer.length : ℚ)

/-- The record pushed into `matchData` by `calculateLineMatchData`. -/
structure LineMatch where
  line : Nat
  similarity : ℚ
  matched : Bool
  deriving DecidableEq, Repr

/-- The body of the inner `lines2.forEach` of `calculateLineMatchData`
(lines 211-222): update the running maximum and the match flag. -/
def lineScanStep (trimmed1 : List Char) (acc : ℚ × Bool) (line2 : List Char) : ℚ × Bool :=
  let trimmed2 := trimChars line2
  if trimmed2.length = 0 then acc
  else
    let similarity := calculateLineSimilarity trimmed1 trimmed2
    let mx := if acc.1 < similarity then similarity else acc.1
    let hm := if (0.8 : ℚ) ≤ similarity then true else acc.2
    (mx, hm)

/-- The record produced for one line of submission 1 (lines 201-225). -/
def recordFor (lines2 : List (List Char)) (line1 : List Char) (idx : Nat) : LineMatch :=
  let trimmed1 := trimChars line1
  if trimmed1.length = 0 then ⟨idx + 1, 0, false⟩
  else
    let st := lines2.foldl (lineScanStep trimmed1) (0, false)
    ⟨idx + 1, st.1, st.2⟩

/-- The outer `lines1.forEach` of `calculateLineMatchData` with its index. -/
def lineMatchAux (lines2 : List (List Char)) : List (List Char) → Nat → List LineMatch
  | [], _ => []
  | line1 :: rest, idx => recordFor lines2 line1 idx :: lineMatchAux lines2 rest (idx + 1)

/-- JS `calculateLineMatchData` (lines 195-228). -/
def calculateLineMatchData (content1 content2 : List Char) : List LineMatch :=
  lineMatchAux (splitNl content2) (splitNl content1) 0

/-- The `ranges` record of `calculateSimilarityDistribution` (lines 233-239). -/
structure SimilarityRanges where
  exact : Nat
  high : Nat
  medium : Nat
  low : Nat
  none : Nat
  deriving DecidableEq, Repr

/-- One step of the `matchData.forEach` of `calculateSimilarityDistribution`
(lines 241-247). -/
def distributionStep (r : SimilarityRanges) (d : LineMatch) : SimilarityRanges :=
  if (0.9 : ℚ) ≤ d.similarity then { r with exact := r.exact + 1 }
  else if (0.7 : ℚ) ≤ d.similarity then { r with high := r.high + 1 }
  else if (0.4 : ℚ) ≤ d.similarity then { r with medium := r.medium + 1 }
  else if 0 < d.similarity then { r with low := r.low + 1 }
  else { r with none := r.none + 1 }

/-- The bucketing fold of `calculateSimilarityDistribution`. -/
def distributionOf (matchData : List LineMatch) : SimilarityRanges :=
  matchData.foldl distributionStep ⟨0, 0, 0, 0, 0⟩

/-- JS `calculateSimilarityDistribution` (lines 231-250). -/
def calculateSimilarityDistribution (content1 content2 : List Char) : SimilarityRanges :=
  distributionOf (calculateLineMatchData content1 content2)

/-- JS `totalLines` (line 254). -/
def totalLines (content1 content2 : List Char) : Nat :=
  (calculateLineMatchData content1 content2).length

/-- JS `matchedLines` (line 255). -/
def matchedLines (content1 content2 : List Char) : Nat :=
  ((calculateLineMatchData content1 content2).filter (fun d => d.matched)).length

/-- JS `matchPercentage` (line 256). -/
def matchPercentage (content1 content2 : List Char) : ℚ :=
  if 0 < totalLines content1 content2 then
    (matchedLines content1 content2 : ℚ) / (totalLines content1 content2 : ℚ) * 100
  else 0

/-- Specification-side Levenshtein distance: the standard recurrence computing
the minimum number of single-character insert, delete and substitute
operations, each of cost 1, transforming one string into the other. -/
def editDistance : List Char → List Char → Nat
  | [], ys => ys.length
  | x :: xs, [] => (x :: xs).length
  | x :: xs, y :: ys =>
    min (editDistance xs (y :: ys) + 1)
      (min (editDistance (x :: xs) ys + 1)
        (editDistance xs ys + (if x = y then 0 else 1)))
termination_by l1 l2 => l1.length + l2.length
decreasing_by all_goals (simp only [List.length_cons]; omega)

/-- The mathematical content of row i of the Levenshtein matrix: entry j is
the edit distance between the processed prefix u of str2 and the prefix of
str1 of length j. -/
def specRow (u str1 : List Char) : List Nat :=
  (List.range (str1.length + 1)).map (fun j => editDistance u (str1.take j))

/-- Specification-side membership of a similarity value in the five
distribution buckets: exact is the interval from 0.9 to 1, high from 0.7
below 0.9, medium from 0.4 below 0.7, low strictly between 0 and 0.4, none
exactly 0. -/
def bucketMem (s : ℚ) : Fin 5 → Prop
  | 0 => 0.9 ≤ s ∧ s ≤ 1
  | 1 => 0.7 ≤ s ∧ s < 0.9
  | 2 => 0.4 ≤ s ∧ s < 0.7
  | 3 => 0 < s ∧ s < 0.4
  | 4 => s = 0


/-! ### Properties of the specification-side edit distance -/

theorem editDistance_nil_left (ys : List Char) : editDistance [] ys = ys.length := by
  simp [editDistance]

theorem editDistance_nil_right (xs : List Char) : editDistance xs [] = xs.length := by
  cases xs <;> simp [editDistance]

theorem editDistance_cons_cons (x y : Char) (xs ys : List Char) :
    editDistance (x :: xs) (y :: ys) =
      min (editDistance xs (y :: ys) + 1)
        (min (editDistance (x :: xs) ys + 1)
          (editDistance xs ys + (if x = y then 0 else 1))) := by
  simp [editDistance]

theorem editDistance_bounds_aux : ∀ (n : ℕ) (u v : List Char), u.length + v.length ≤ n →
    u.length ≤ editDistance u v + v.length ∧ v.length ≤ editDistance u v + u.length := by
  intro n
  induction n with
  | zero =>
    intro u v h
    have hu : u = [] := List.length_eq_zero.mp (by omega)
    have hv : v = [] := List.length_eq_zero.mp (by omega)
    subst hu; subst hv
    simp [editDistance]
  | succ n ih =>
    intro u v h
    match u, v with
    | [], v => simp [editDistance_nil_left]
    | x :: xs, [] => simp [editDistance_nil_right]
    | x :: xs, y :: ys =>
      have h1 := ih xs (y :: ys) (by simp only [List.length_cons] at h ⊢; omega)
      have h2 := ih (x :: xs) ys (by simp only [List.length_cons] at h ⊢; omega)
      have h3 := ih xs ys (by simp only [List.length_cons] at h ⊢; omega)
      rw [editDistance_cons_cons]
      simp only [List.length_cons] at h1 h2 h3 ⊢
      by_cases hxy : x = y
      · simp only [if_pos hxy]; omega
      · simp only [if_neg hxy]; omega

theorem editDistance_le_snocR_aux : ∀ (n : ℕ) (u v : List Char) (b : Char),
    u.length + v.length ≤ n →
    editDistance u v ≤ editDistance u (v ++ [b]) + 1 := by
  intro n
  induction n with
  | zero =>
    intro u v b h
    have hu : u = [] := List.length_eq_zero.mp (by omega)
    have hv : v = [] := List.length_eq_zero.mp (by omega)
    subst hu; subst hv
    simp [editDistance_nil_left]
  | succ n ih =>
    intro u v b h
    match u, v with
    | [], v =>
      simp only [editDistance_nil_left, List.length_append, List.length_cons,
        List.length_nil]
      omega
    | x :: xs, [] =>
      have hb := (editDistance_bounds_aux ((x :: xs).length + 1) (x :: xs) [b]
        (by simp only [List.length_cons, List.length_nil]; omega)).1
      simp only [List.length_cons, List.length_nil, List.nil_append,
        editDistance_nil_right] at hb ⊢
      omega
    | x :: xs, y :: ys =>
      have h1 := ih xs (y :: ys) b (by simp only [List.length_cons] at h ⊢; omega)
      have h2 := ih (x :: xs) ys b (by simp only [List.length_cons] at h ⊢; omega)
      have h3 := ih xs ys b (by simp only [List.length_cons] at h ⊢; omega)
      simp only [List.cons_append] at h1 h2 h3 ⊢
      rw [editDistance_cons_cons, editDistance_cons_cons]
      by_cases hxy : x = y
      · simp only [if_pos hxy]; omega
      · simp only [if_neg hxy]; omega

theorem editDistance_le_snocL_aux : ∀ (n : ℕ) (u v : List Char) (a : Char),
    u.length + v.length ≤ n →
    editDistance u v ≤ editDistance (u ++ [a]) v + 1 := by
  intro n
  induction n with
  | zero =>
    intro u v a h
    have hu : u = [] := List.length_eq_zero.mp (by omega)
    have hv : v = [] := List.length_eq_zero.mp (by omega)
    subst hu; subst hv
    simp [editDistance_nil_right]
  | succ n ih =>
    intro u v a h
    match u, v with
    | u, [] =>
      simp only [editDistance_nil_right, List.length_append, List.length_cons,
        List.length_nil]
      omega
    | [], y :: ys =>
      have hb := (editDistance_bounds_aux ((y :: ys).length + 1) [a] (y :: ys)
        (by simp only [List.length_cons, List.length_nil]; omega)).2
      simp only [List.length_cons, List.length_nil, List.nil_append,
        editDistance_nil_left] at hb ⊢
      omega
    | x :: xs, y :: ys =>
      have h1 := ih xs (y :: ys) a (by simp only [List.length_cons] at h ⊢; omega)
      have h2 := ih (x :: xs) ys a (by simp only [List.length_cons] at h ⊢; omega)
      have h3 := ih xs ys a (by simp only [List.length_cons] at h ⊢; omega)
      simp only [List.cons_append] at h1 h2 h3 ⊢
      rw [editDistance_cons_cons, editDistance_cons_cons]
      by_cases hxy : x = y
      · simp only [if_pos hxy]; omega
      · simp only [if_neg hxy]; omega


theorem min9_transpose (a b c d e f g h i : ℕ) :
    min (min a (min b c)) (min (min d (min e f)) (min g (min h i)))
      = min (min a (min d g)) (min (min b (min e h)) (min c (min f i))) := by
  apply le_antisymm
  · refine le_min (le_min ?_ (le_min ?_ ?_))
      (le_min (le_min ?_ (le_min ?_ ?_)) (le_min ?_ (le_min ?_ ?_))) <;> omega
  · refine le_min (le_min ?_ (le_min ?_ ?_))
      (le_min (le_min ?_ (le_min ?_ ?_)) (le_min ?_ (le_min ?_ ?_))) <;> omega

theorem editDistance_snoc_aux : ∀ (n : ℕ) (u v : List Char) (a b : Char),
    u.length + v.length ≤ n →
    editDistance (u ++ [a]) (v ++ [b]) =
      min (editDistance u (v ++ [b]) + 1)
        (min (editDistance (u ++ [a]) v + 1)
          (editDistance u v + (if a = b then 0 else 1))) := by
  intro n
  induction n with
  | zero =>
    intro u v a b h
    have hu : u = [] := List.length_eq_zero.mp (by omega)
    have hv : v = [] := List.length_eq_zero.mp (by omega)
    subst hu; subst hv
    simp only [List.nil_append, editDistance_cons_cons, editDistance_nil_left,
      editDistance_nil_right, List.length_nil, List.length_cons]
  | succ n ih =>
    intro u v a b h
    match u, v with
    | [], [] =>
      simp only [List.nil_append, editDistance_cons_cons, editDistance_nil_left,
        editDistance_nil_right, List.length_nil, List.length_cons]
    | [], y :: ys =>
      have h1 := ih [] ys a b (by simp only [List.length_cons, List.length_nil] at h ⊢; omega)
      simp only [List.nil_append, List.cons_append] at h1 ⊢
      rw [editDistance_cons_cons, editDistance_cons_cons, h1]
      simp only [editDistance_nil_left, List.length_cons, List.length_append,
        List.length_nil]
      split_ifs <;> omega
    | x :: xs, [] =>
      have h1 := ih xs [] a b (by simp only [List.length_cons, List.length_nil] at h ⊢; omega)
      simp only [List.nil_append, List.cons_append] at h1 ⊢
      rw [editDistance_cons_cons, editDistance_cons_cons, h1]
      simp only [editDistance_nil_right, List.length_cons, List.length_append,
        List.length_nil]
      split_ifs <;> omega
    | x :: xs, y :: ys =>
      have h1 := ih xs (y :: ys) a b (by simp only [List.length_cons] at h ⊢; omega)
      have h2 := ih (x :: xs) ys a b (by simp only [List.length_cons] at h ⊢; omega)
      have h3 := ih xs ys a b (by simp only [List.length_cons] at h ⊢; omega)
      simp only [List.cons_append] at h1 h2 h3 ⊢
      rw [editDistance_cons_cons x y (xs ++ [a]) (ys ++ [b]),
        h1, h2, h3, editDistance_cons_cons x y xs (ys ++ [b]),
        editDistance_cons_cons x y (xs ++ [a]) ys,
        editDistance_cons_cons x y xs ys]
      split_ifs <;> simp only [Nat.add_zero, ← min_add_add_right] <;>
        exact min9_transpose _ _ _ _ _ _ _ _ _

theorem editDistance_snoc (u v : List Char) (a b : Char) :
    editDistance (u ++ [a]) (v ++ [b]) =
      min (editDistance u (v ++ [b]) + 1)
        (min (editDistance (u ++ [a]) v + 1)
          (editDistance u v + (if a = b then 0 else 1))) :=
  editDistance_snoc_aux (u.length + v.length) u v a b le_rfl

theorem editDistance_snoc_eq (u v : List Char) (a : Char) :
    editDistance (u ++ [a]) (v ++ [a]) = editDistance u v := by
  have h1 := editDistance_le_snocR_aux (u.length + v.length) u v a le_rfl
  have h2 := editDistance_le_snocL_aux (u.length + v.length) u v a le_rfl
  rw [editDistance_snoc]
  split_ifs with hc
  · omega
  · exact absurd rfl hc
theorem editDistance_comm_aux : ∀ (n : ℕ) (u v : List Char), u.length + v.length ≤ n →
    editDistance u v = editDistance v u := by
  intro n
  induction n with
  | zero =>
    intro u v h
    have hu : u = [] := List.length_eq_zero.mp (by omega)
    have hv : v = [] := List.length_eq_zero.mp (by omega)
    subst hu; subst hv; rfl
  | succ n ih =>
    intro u v h
    match u, v with
    | [], v => simp [editDistance_nil_left, editDistance_nil_right]
    | x :: xs, [] => simp [editDistance_nil_left, editDistance_nil_right]
    | x :: xs, y :: ys =>
      have h1 := ih xs (y :: ys) (by simp only [List.length_cons] at h ⊢; omega)
      have h2 := ih (x :: xs) ys (by simp only [List.length_cons] at h ⊢; omega)
      have h3 := ih xs ys (by simp only [List.length_cons] at h ⊢; omega)
      rw [editDistance_cons_cons, editDistance_cons_cons, h1, h2, h3]
      have hc : (if y = x then (0 : ℕ) else 1) = if x = y then 0 else 1 := by
        by_cases hxy : x = y
        · have hyx : y = x := hxy.symm
          simp only [if_pos hxy, if_pos hyx]
        · have hyx : ¬ y = x := fun hyx => hxy hyx.symm
          simp only [if_neg hxy, if_neg hyx]
      rw [hc]
      omega

theorem editDistance_comm (u v : List Char) : editDistance u v = editDistance v u :=
  editDistance_comm_aux (u.length + v.length) u v le_rfl

theorem editDistance_le_max_aux : ∀ (n : ℕ) (u v : List Char), u.length + v.length ≤ n →
    editDistance u v ≤ max u.length v.length := by
  intro n
  induction n with
  | zero =>
    intro u v h
    have hu : u = [] := List.length_eq_zero.mp (by omega)
    have hv : v = [] := List.length_eq_zero.mp (by omega)
    subst hu; subst hv; simp [editDistance]
  | succ n ih =>
    intro u v h
    match u, v with
    | [], v => simp [editDistance_nil_left]
    | x :: xs, [] => simp [editDistance_nil_right]
    | x :: xs, y :: ys =>
      have h3 := ih xs ys (by simp only [List.length_cons] at h ⊢; omega)
      rw [editDistance_cons_cons]
      simp only [List.length_cons]
      by_cases hxy : x = y
      · simp only [if_pos hxy]; omega
      · simp only [if_neg hxy]; omega

theorem editDistance_le_max (u v : List Char) :
    editDistance u v ≤ max u.length v.length :=
  editDistance_le_max_aux (u.length + v.length) u v le_rfl

/-! ### The dynamic-programming matrix computes the edit distance -/

theorem rangeMap_cons {α : Type} (n : ℕ) (f : ℕ → α) :
    (List.range (n + 1)).map f = f 0 :: (List.range n).map (fun k => f (k + 1)) := by
  rw [List.range_succ_eq_map, List.map_cons, List.map_map]
  rfl

theorem levRowAux_spec (c : Char) (u : List Char) : ∀ (w v : List Char),
    levRowAux c w
        ((List.range w.length).map (fun k => editDistance u (v ++ w.take (k + 1))))
        (editDistance u v) (editDistance (u ++ [c]) v)
      = (List.range w.length).map (fun k => editDistance (u ++ [c]) (v ++ w.take (k + 1))) := by
  intro w
  induction w with
  | nil => intro v; simp [levRowAux]
  | cons x xs ih =>
    intro v
    rw [List.length_cons, rangeMap_cons, rangeMap_cons]
    simp only [List.take_succ_cons, List.take_zero]
    simp only [levRowAux]
    have hcur : (if c = x then editDistance u v
        else min (editDistance u v + 1)
          (min (editDistance (u ++ [c]) v + 1) (editDistance u (v ++ [x]) + 1)))
        = editDistance (u ++ [c]) (v ++ [x]) := by
      by_cases hcx : c = x
      · rw [if_pos hcx, hcx, editDistance_snoc_eq]
      · rw [if_neg hcx, editDistance_snoc, if_neg hcx]
        omega
    rw [hcur]
    have htail := ih (v ++ [x])
    simp only [← List.append_cons] at htail
    rw [htail]

theorem levRow_spec (c : Char) (u str1 : List Char) :
    levRow c str1 (u.length + 1) (specRow u str1) = specRow (u ++ [c]) str1 := by
  unfold levRow specRow
  rw [rangeMap_cons, rangeMap_cons]
  simp only [List.take_zero, List.headD_cons, List.drop_succ_cons, List.drop_zero,
    editDistance_nil_right, List.length_append, List.length_cons, List.length_nil]
  have hs := levRowAux_spec c u str1 []
  simp only [List.nil_append, editDistance_nil_right, List.length_append,
    List.length_cons, List.length_nil] at hs
  rw [hs]

theorem levRows_spec (str1 : List Char) : ∀ (rest u : List Char),
    levRows str1 rest u.length (specRow u str1) = specRow (u ++ rest) str1 := by
  intro rest
  induction rest with
  | nil => intro u; simp [levRows]
  | cons c cs ih =>
    intro u
    have hstep : levRows str1 (c :: cs) u.length (specRow u str1)
        = levRows str1 cs (u.length + 1) (levRow c str1 (u.length + 1) (specRow u str1)) := rfl
    rw [hstep, levRow_spec]
    have h := ih (u ++ [c])
    simp only [List.length_append, List.length_cons, List.length_nil,
      List.append_assoc, List.singleton_append, Nat.zero_add] at h
    exact h

theorem levenshteinDistance_eq (str1 str2 : List Char) :
    levenshteinDistance str1 str2 = editDistance str2 str1 := by
  unfold levenshteinDistance
  have h0 : List.range (str1.length + 1) = specRow [] str1 := by
    unfold specRow
    apply List.ext_getElem
    · simp
    · intro i h1 h2
      simp only [List.getElem_map, List.getElem_range, editDistance_nil_left,
        List.length_take]
      simp only [List.length_range] at h1
      omega
  rw [h0]
  have h := levRows_spec str1 str2 []
  simp only [List.length_nil, List.nil_append] at h
  rw [h]
  unfold specRow
  rw [List.range_succ, List.map_append, List.map_cons, List.map_nil,
    List.getLastD_concat, List.take_length]

/-! ### Shape of the line similarity score -/

theorem calculateLineSimilarity_eq (str1 str2 : List Char) :
    calculateLineSimilarity str1 str2 =
      if max str1.length str2.length = 0 then 1
      else (((max str1.length str2.length : ℕ) : ℚ) - ((editDistance str1 str2 : ℕ) : ℚ))
            / ((max str1.length str2.length : ℕ) : ℚ) := by
  by_cases h : str2.length < str1.length
  · have hm : max str1.length str2.length = str1.length := max_eq_left (le_of_lt h)
    simp only [calculateLineSimilarity, if_pos h, hm, levenshteinDistance_eq,
      editDistance_comm str2 str1]
  · have hm : max str1.length str2.length = str2.length := max_eq_right (le_of_not_lt h)
    simp only [calculateLineSimilarity, if_neg h, hm, levenshteinDistance_eq]

theorem calculateLineSimilarity_nonneg (s1 s2 : List Char) :
    0 ≤ calculateLineSimilarity s1 s2 := by
  rw [calculateLineSimilarity_eq]
  split_ifs with h
  · norm_num
  · have hd := editDistance_le_max s1 s2
    have hM : 0 < max s1.length s2.length := Nat.pos_of_ne_zero h
    apply div_nonneg
    · have : ((editDistance s1 s2 : ℕ) : ℚ) ≤ ((max s1.length s2.length : ℕ) : ℚ) := by
        exact_mod_cast hd
      linarith
    · exact_mod_cast Nat.zero_le _

theorem calculateLineSimilarity_le_one (s1 s2 : List Char) :
    calculateLineSimilarity s1 s2 ≤ 1 := by
  rw [calculateLineSimilarity_eq]
  split_ifs with h
  · norm_num
  · have hM : 0 < max s1.length s2.length := Nat.pos_of_ne_zero h
    have hMq : (0 : ℚ) < ((max s1.length s2.length : ℕ) : ℚ) := by exact_mod_cast hM
    rw [div_le_one hMq]
    have : (0 : ℚ) ≤ ((editDistance s1 s2 : ℕ) : ℚ) := by exact_mod_cast Nat.zero_le _
    linarith

/-! ### Jaccard token similarity: cardinality form, symmetry, bounds -/

theorem jaccard_inter_card (t1 t2 : List (List Char)) :
    (t1.dedup.filter (fun x => decide (x ∈ t2.dedup))).length
      = (t1.toFinset ∩ t2.toFinset).card := by
  have hnd : (t1.dedup.filter (fun x => decide (x ∈ t2.dedup))).Nodup :=
    (List.nodup_dedup t1).filter _
  rw [← List.toFinset_card_of_nodup hnd]
  congr 1
  ext x
  simp [List.mem_toFinset, List.mem_filter, List.mem_dedup]

theorem jaccard_union_card (t1 t2 : List (List Char)) :
    ((t1.dedup ++ t2.dedup).dedup).length = (t1.toFinset ∪ t2.toFinset).card := by
  rw [← List.toFinset_card_of_nodup (List.nodup_dedup _)]
  congr 1
  ext x
  simp [List.mem_toFinset, List.mem_dedup, List.mem_append]

theorem calculateTokenSimilarity_cards (t1 t2 : List (List Char)) :
    calculateTokenSimilarity t1 t2 =
      if 0 < (t1.toFinset ∪ t2.toFinset).card
      then ((t1.toFinset ∩ t2.toFinset).card : ℚ) / ((t1.toFinset ∪ t2.toFinset).card : ℚ)
      else 0 := by
  simp only [calculateTokenSimilarity]
  rw [jaccard_inter_card, jaccard_union_card]

theorem calculateTokenSimilarity_comm (t1 t2 : List (List Char)) :
    calculateTokenSimilarity t1 t2 = calculateTokenSimilarity t2 t1 := by
  rw [calculateTokenSimilarity_cards, calculateTokenSimilarity_cards,
    Finset.inter_comm, Finset.union_comm]

theorem calculateTokenSimilarity_nonneg (t1 t2 : List (List Char)) :
    0 ≤ calculateTokenSimilarity t1 t2 := by
  rw [calculateTokenSimilarity_cards]
  split_ifs
  · apply div_nonneg <;> exact_mod_cast Nat.zero_le _
  · norm_num

theorem calculateTokenSimilarity_le_one (t1 t2 : List (List Char)) :
    calculateTokenSimilarity t1 t2 ≤ 1 := by
  rw [calculateTokenSimilarity_cards]
  split_ifs with h
  · rw [div_le_one (by exact_mod_cast h)]
    exact_mod_cast Finset.card_le_card Finset.inter_subset_union
  · norm_num

theorem calculateTokenSimilarity_self (t : List (List Char)) (h : t ≠ []) :
    calculateTokenSimilarity t t = 1 := by
  rw [calculateTokenSimilarity_cards, Finset.union_self, Finset.inter_self]
  have hcard : 0 < t.toFinset.card := by
    rcases List.exists_mem_of_ne_nil t h with ⟨x, hx⟩
    exact Finset.card_pos.mpr ⟨x, List.mem_toFinset.mpr hx⟩
  rw [if_pos hcard, div_self]
  exact_mod_cast Nat.pos_iff_ne_zero.mp hcard

/-! ### Exact-or-containment similarity: bounds -/

theorem calculateExactSimilarity_nonneg (s t : List Char) :
    0 ≤ calculateExactSimilarity s t := by
  simp only [calculateExactSimilarity]
  split_ifs
  · norm_num
  · apply div_nonneg <;> exact_mod_cast Nat.zero_le _
  · norm_num

theorem calculateExactSimilarity_le_one (s t : List Char) :
    calculateExactSimilarity s t ≤ 1 := by
  simp only [calculateExactSimilarity]
  split_ifs with h1 h2
  · norm_num
  · have hmax : 0 < max (normalize s).length (normalize t).length := by
      by_contra hc
      have h1len : (normalize s).length = 0 := by omega
      have h2len : (normalize t).length = 0 := by omega
      exact h1 ((List.length_eq_zero.mp h1len).trans (List.length_eq_zero.mp h2len).symm)
    rw [div_le_one (by exact_mod_cast hmax)]
    exact_mod_cast min_le_max
  · norm_num

/-! ### The per-line scan of calculateLineMatchData -/

theorem lineScanStep_fst_ge (t1 : List Char) (acc : ℚ × Bool) (x : List Char) :
    acc.1 ≤ (lineScanStep t1 acc x).1 := by
  by_cases he : (trimChars x).length = 0
  · simp [lineScanStep, he]
  · by_cases h : acc.1 < calculateLineSimilarity t1 (trimChars x)
    · simp only [lineScanStep, if_neg he, if_pos h]
      exact le_of_lt h
    · simp only [lineScanStep, if_neg he, if_neg h]
      exact le_rfl

theorem lineScanStep_fst_le (t1 : List Char) (acc : ℚ × Bool) (x : List Char)
    (hne : (trimChars x).length ≠ 0) :
    calculateLineSimilarity t1 (trimChars x) ≤ (lineScanStep t1 acc x).1 := by
  by_cases h : acc.1 < calculateLineSimilarity t1 (trimChars x)
  · simp only [lineScanStep, if_neg hne, if_pos h]
    exact le_rfl
  · simp only [lineScanStep, if_neg hne, if_neg h]
    exact le_of_not_lt h

theorem lineScanStep_fst_cases (t1 : List Char) (acc : ℚ × Bool) (x : List Char) :
    (lineScanStep t1 acc x).1 = acc.1 ∨
      ((trimChars x).length ≠ 0 ∧
        (lineScanStep t1 acc x).1 = calculateLineSimilarity t1 (trimChars x)) := by
  by_cases he : (trimChars x).length = 0
  · left; simp [lineScanStep, he]
  · by_cases h : acc.1 < calculateLineSimilarity t1 (trimChars x)
    · right
      refine ⟨he, ?_⟩
      simp only [lineScanStep, if_neg he, if_pos h]
    · left
      simp only [lineScanStep, if_neg he, if_neg h]

theorem lineScanStep_snd (t1 : List Char) (acc : ℚ × Bool) (x : List Char) :
    (lineScanStep t1 acc x).2 = true ↔
      (acc.2 = true ∨ ((trimChars x).length ≠ 0 ∧
        (0.8 : ℚ) ≤ calculateLineSimilarity t1 (trimChars x))) := by
  by_cases he : (trimChars x).length = 0
  · simp [lineScanStep, he]
  · by_cases h : (0.8 : ℚ) ≤ calculateLineSimilarity t1 (trimChars x)
    · simp [lineScanStep, he, h]
    · simp [lineScanStep, he, h]

theorem lineScan_foldl_fst_ge (t1 : List Char) : ∀ (l : List (List Char)) (acc : ℚ × Bool),
    acc.1 ≤ (l.foldl (lineScanStep t1) acc).1 := by
  intro l
  induction l with
  | nil => intro acc; exact le_rfl
  | cons x xs ih =>
    intro acc
    rw [List.foldl_cons]
    exact le_trans (lineScanStep_fst_ge t1 acc x) (ih _)

theorem lineScan_foldl_fst_ub (t1 : List Char) : ∀ (l : List (List Char)) (acc : ℚ × Bool)
    (l2 : List Char), l2 ∈ l → (trimChars l2).length ≠ 0 →
    calculateLineSimilarity t1 (trimChars l2) ≤ (l.foldl (lineScanStep t1) acc).1 := by
  intro l
  induction l with
  | nil => intro acc l2 hmem _; exact absurd hmem (List.not_mem_nil l2)
  | cons x xs ih =>
    intro acc l2 hmem hne
    rw [List.foldl_cons]
    rcases List.mem_cons.mp hmem with h | h
    · subst h
      exact le_trans (lineScanStep_fst_le t1 acc l2 hne) (lineScan_foldl_fst_ge t1 xs _)
    · exact ih _ l2 h hne

theorem lineScan_foldl_fst_cases (t1 : List Char) : ∀ (l : List (List Char)) (acc : ℚ × Bool),
    (l.foldl (lineScanStep t1) acc).1 = acc.1 ∨
      ∃ l2, l2 ∈ l ∧ (trimChars l2).length ≠ 0 ∧
        (l.foldl (lineScanStep t1) acc).1 = calculateLineSimilarity t1 (trimChars l2) := by
  intro l
  induction l with
  | nil => intro acc; left; rfl
  | cons x xs ih =>
    intro acc
    rw [List.foldl_cons]
    rcases ih (lineScanStep t1 acc x) with h | ⟨l2, hmem, hne, heq⟩
    · rcases lineScanStep_fst_cases t1 acc x with h2 | ⟨hne, h2⟩
      · left; rw [h, h2]
      · right; exact ⟨x, List.mem_cons_self x xs, hne, by rw [h, h2]⟩
    · right; exact ⟨l2, List.mem_cons_of_mem x hmem, hne, heq⟩

theorem lineScan_foldl_snd (t1 : List Char) : ∀ (l : List (List Char)) (acc : ℚ × Bool),
    (l.foldl (lineScanStep t1) acc).2 = true ↔
      (acc.2 = true ∨ ∃ l2, l2 ∈ l ∧ (trimChars l2).length ≠ 0 ∧
        (0.8 : ℚ) ≤ calculateLineSimilarity t1 (trimChars l2)) := by
  intro l
  induction l with
  | nil => intro acc; simp
  | cons x xs ih =>
    intro acc
    rw [List.foldl_cons, ih (lineScanStep t1 acc x), lineScanStep_snd]
    constructor
    · rintro ((h | h) | ⟨l2, hmem, hne, hsim⟩)
      · exact Or.inl h
      · exact Or.inr ⟨x, List.mem_cons_self x xs, h.1, h.2⟩
      · exact Or.inr ⟨l2, List.mem_cons_of_mem x hmem, hne, hsim⟩
    · rintro (h | ⟨l2, hmem, hne, hsim⟩)
      · exact Or.inl (Or.inl h)
      · rcases List.mem_cons.mp hmem with h2 | h2
        · subst h2
          exact Or.inl (Or.inr ⟨hne, hsim⟩)
        · exact Or.inr ⟨l2, h2, hne, hsim⟩

/-! ### Per-line records -/

theorem recordFor_line (L2 : List (List Char)) (l1 : List Char) (i : ℕ) :
    (recordFor L2 l1 i).line = i + 1 := by
  simp only [recordFor]
  split_ifs <;> rfl

theorem recordFor_empty (L2 : List (List Char)) (l1 : List Char) (i : ℕ)
    (h : (trimChars l1).length = 0) :
    (recordFor L2 l1 i).similarity = 0 ∧ (recordFor L2 l1 i).matched = false := by
  simp only [recordFor]
  rw [if_pos h]
  exact ⟨rfl, rfl⟩

theorem recordFor_scan (L2 : List (List Char)) (l1 : List Char) (i : ℕ)
    (h : ¬ (trimChars l1).length = 0) :
    (recordFor L2 l1 i).similarity = (L2.foldl (lineScanStep (trimChars l1)) (0, false)).1 ∧
      (recordFor L2 l1 i).matched = (L2.foldl (lineScanStep (trimChars l1)) (0, false)).2 := by
  simp only [recordFor]
  rw [if_neg h]
  exact ⟨rfl, rfl⟩

theorem recordFor_sim_nonneg (L2 : List (List Char)) (l1 : List Char) (i : ℕ) :
    0 ≤ (recordFor L2 l1 i).similarity := by
  by_cases h : (trimChars l1).length = 0
  · rw [(recordFor_empty L2 l1 i h).1]
  · rw [(recordFor_scan L2 l1 i h).1]
    exact lineScan_foldl_fst_ge _ L2 (0, false)

theorem recordFor_sim_le_one (L2 : List (List Char)) (l1 : List Char) (i : ℕ) :
    (recordFor L2 l1 i).similarity ≤ 1 := by
  by_cases h : (trimChars l1).length = 0
  · rw [(recordFor_empty L2 l1 i h).1]
    norm_num
  · rw [(recordFor_scan L2 l1 i h).1]
    rcases lineScan_foldl_fst_cases (trimChars l1) L2 (0, false) with hc | ⟨l2, _, _, heq⟩
    · rw [hc]; norm_num
    · rw [heq]
      exact calculateLineSimilarity_le_one _ _

theorem lineMatchAux_length (L2 : List (List Char)) : ∀ (L : List (List Char)) (idx : ℕ),
    (lineMatchAux L2 L idx).length = L.length := by
  intro L
  induction L with
  | nil => intro idx; rfl
  | cons a as ih => intro idx; simp [lineMatchAux, ih]

theorem lineMatchAux_getD (L2 : List (List Char)) : ∀ (L : List (List Char)) (idx i : ℕ),
    i < L.length →
    (lineMatchAux L2 L idx).getD i ⟨0, 0, false⟩ = recordFor L2 (L.getD i []) (idx + i) := by
  intro L
  induction L with
  | nil => intro idx i h; exact absurd h (Nat.not_lt_zero i)
  | cons a as ih =>
    intro idx i h
    cases i with
    | zero => simp [lineMatchAux]
    | succ n =>
      have hlt : n < as.length := by
        simp only [List.length_cons] at h
        omega
      simp only [lineMatchAux, List.getD_cons_succ]
      rw [ih (idx + 1) n hlt]
      congr 1
      omega

theorem lineMatchAux_mem_bounds (L2 : List (List Char)) : ∀ (L : List (List Char)) (idx : ℕ)
    (r : LineMatch), r ∈ lineMatchAux L2 L idx → 0 ≤ r.similarity ∧ r.similarity ≤ 1 := by
  intro L
  induction L with
  | nil => intro idx r hr; exact absurd hr (List.not_mem_nil r)
  | cons a as ih =>
    intro idx r hr
    rcases List.mem_cons.mp hr with h | h
    · subst h
      exact ⟨recordFor_sim_nonneg _ _ _, recordFor_sim_le_one _ _ _⟩
    · exact ih _ r h

theorem splitNl_ne_nil (l : List Char) : splitNl l ≠ [] := by
  cases l with
  | nil => simp [splitNl]
  | cons c cs =>
    simp only [splitNl]
    split_ifs
    · simp
    · rcases hsp : splitNl cs with _ | ⟨x, xs⟩ <;> simp [hsp]

/-! ### Claim theorems -/

/-- C3: the dynamic token-overlap threshold is the exact function of the
overall score given by the four brackets, with the boundary values 0.8, 0.6
and 0.4 resolving to 0.2, 0.3 and 0.4 respectively. -/
theorem dynamicThreshold_spec (s : ℚ) :
    ((0.8 : ℚ) ≤ s → dynamicThreshold s = 0.2) ∧
    ((0.6 : ℚ) ≤ s → s < 0.8 → dynamicThreshold s = 0.3) ∧
    ((0.4 : ℚ) ≤ s → s < 0.6 → dynamicThreshold s = 0.4) ∧
    (s < 0.4 → dynamicThreshold s = 0.5) := by
  unfold dynamicThreshold
  refine ⟨?_, ?_, ?_, ?_⟩
  · intro h; rw [if_pos h]
  · intro h1 h2; rw [if_neg (not_le.mpr h2), if_pos h1]
  · intro h1 h2
    rw [if_neg (not_le.mpr (by linarith)), if_neg (not_le.mpr h2), if_pos h1]
  · intro h
    rw [if_neg (not_le.mpr (by linarith)), if_neg (not_le.mpr (by linarith)),
      if_neg (not_le.mpr h)]

/-- Witness for C3 at the boundary scores and a low score. -/
theorem dynamicThreshold_spec_witness :
    dynamicThreshold 0.8 = 0.2 ∧ dynamicThreshold 0.6 = 0.3 ∧
      dynamicThreshold 0.4 = 0.4 ∧ dynamicThreshold 0.1 = 0.5 :=
  ⟨(dynamicThreshold_spec 0.8).1 (by norm_num),
   (dynamicThreshold_spec 0.6).2.1 (by norm_num) (by norm_num),
   (dynamicThreshold_spec 0.4).2.2.1 (by norm_num) (by norm_num),
   (dynamicThreshold_spec 0.1).2.2.2 (by norm_num)⟩

/-- C4 counterexample: the document made of the two characters a and b is a
non-empty string, yet its token list is empty (every token of length at most
2 is dropped), so the Jaccard score of the document with itself is 0 and not
1. -/
theorem jaccard_self_counterexample :
    (['a', 'b'] : List Char) ≠ [] ∧
    calculateTokenSimilarity (tokenize ['a', 'b']) (tokenize ['a', 'b']) = 0 ∧
    calculateTokenSimilarity (tokenize ['a', 'b']) (tokenize ['a', 'b']) ≠ 1 := by
  refine ⟨by decide, by decide, by decide⟩

/-- C4 amended: for every document whose token list is non-empty, the Jaccard
score of the document with itself is 1. -/
theorem jaccard_self_amended (A : List Char) (h : tokenize A ≠ []) :
    calculateTokenSimilarity (tokenize A) (tokenize A) = 1 :=
  calculateTokenSimilarity_self (tokenize A) h

/-- Witness for the amended C4 on a document with one token. -/
theorem jaccard_self_amended_witness :
    tokenize ['a', 'b', 'c'] ≠ [] ∧
      calculateTokenSimilarity (tokenize ['a', 'b', 'c']) (tokenize ['a', 'b', 'c']) = 1 :=
  ⟨by decide, jaccard_self_amended ['a', 'b', 'c'] (by decide)⟩

/-- C5: the Levenshtein-derived similarity equals
(maximum length - edit distance) / maximum length, where the edit distance is
the minimum number of unit-cost insert, delete and substitute operations; it
is 1 when both strings are empty and 0 when exactly one is empty. -/
theorem levenshtein_similarity_spec (str1 str2 : List Char) :
    calculateLineSimilarity str1 str2 =
      (if max str1.length str2.length = 0 then 1
       else (((max str1.length str2.length : ℕ) : ℚ) - ((editDistance str1 str2 : ℕ) : ℚ))
            / ((max str1.length str2.length : ℕ) : ℚ)) ∧
    (str1 = [] → str2 = [] → calculateLineSimilarity str1 str2 = 1) ∧
    (str1 = [] → str2 ≠ [] → calculateLineSimilarity str1 str2 = 0) ∧
    (str1 ≠ [] → str2 = [] → calculateLineSimilarity str1 str2 = 0) := by
  refine ⟨calculateLineSimilarity_eq str1 str2, ?_, ?_, ?_⟩
  · intro h1 h2; subst h1; subst h2; rfl
  · intro h1 h2; subst h1
    rw [calculateLineSimilarity_eq]
    have hlen : str2.length ≠ 0 := fun hc => h2 (List.length_eq_zero.mp hc)
    have hmax : max ([] : List Char).length str2.length = str2.length := by simp
    rw [hmax, if_neg hlen, editDistance_nil_left, sub_self, zero_div]
  · intro h1 h2; subst h2
    rw [calculateLineSimilarity_eq]
    have hlen : str1.length ≠ 0 := fun hc => h1 (List.length_eq_zero.mp hc)
    have hmax : max str1.length ([] : List Char).length = str1.length := by simp
    rw [hmax, if_neg hlen, editDistance_nil_right, sub_self, zero_div]

/-- Witness for C5 on the two empty-string boundary cases. -/
theorem levenshtein_similarity_spec_witness :
    calculateLineSimilarity [] [] = 1 ∧ calculateLineSimilarity [] ['a'] = 0 ∧
      calculateLineSimilarity ['a'] [] = 0 :=
  ⟨(levenshtein_similarity_spec [] []).2.1 rfl rfl,
   (levenshtein_similarity_spec [] ['a']).2.2.1 rfl (by decide),
   (levenshtein_similarity_spec ['a'] []).2.2.2 (by decide) rfl⟩

/-- C7: every scorer produces values in the unit interval: the token Jaccard
similarity, the exact-or-containment line similarity and the
Levenshtein-derived similarity. -/
theorem scorers_bounded :
    (∀ tokens1 tokens2 : List (List Char),
        0 ≤ calculateTokenSimilarity tokens1 tokens2 ∧
          calculateTokenSimilarity tokens1 tokens2 ≤ 1) ∧
    (∀ s t : List Char,
        0 ≤ calculateExactSimilarity s t ∧ calculateExactSimilarity s t ≤ 1) ∧
    (∀ s t : List Char,
        0 ≤ calculateLineSimilarity s t ∧ calculateLineSimilarity s t ≤ 1) :=
  ⟨fun t1 t2 => ⟨calculateTokenSimilarity_nonneg t1 t2, calculateTokenSimilarity_le_one t1 t2⟩,
   fun s t => ⟨calculateExactSimilarity_nonneg s t, calculateExactSimilarity_le_one s t⟩,
   fun s t => ⟨calculateLineSimilarity_nonneg s t, calculateLineSimilarity_le_one s t⟩⟩

/-- C8: the match percentage equals matched lines over total lines times 100,
with value 0 when there are no lines; matched lines counts the records with
matched set, and total lines counts all records. -/
theorem matchPercentage_spec (c1 c2 : List Char) :
    matchPercentage c1 c2 =
      (if totalLines c1 c2 = 0 then 0
       else (matchedLines c1 c2 : ℚ) / (totalLines c1 c2 : ℚ) * 100) ∧
    matchedLines c1 c2 = (calculateLineMatchData c1 c2).countP (fun r => r.matched) ∧
    totalLines c1 c2 = (calculateLineMatchData c1 c2).length := by
  refine ⟨?_, ?_, rfl⟩
  · unfold matchPercentage
    by_cases h : totalLines c1 c2 = 0
    · rw [if_pos h, if_neg (by omega)]
    · rw [if_neg h, if_pos (by omega)]
  · unfold matchedLines
    rw [List.countP_eq_length_filter]

/-- C9: the Jaccard score of two tokenized documents is symmetric. -/
theorem jaccard_comm (A B : List Char) :
    calculateTokenSimilarity (tokenize A) (tokenize B)
      = calculateTokenSimilarity (tokenize B) (tokenize A) :=
  calculateTokenSimilarity_comm _ _

/-- C10: splitting any content on newlines yields at least one line, so there
is always at least one line-match record, the zero-total fallback of the match
percentage is never taken, and the rational total-line count is never zero. -/
theorem totalLines_pos (c1 c2 : List Char) :
    1 ≤ totalLines c1 c2 ∧ splitNl c1 ≠ [] ∧ ((totalLines c1 c2 : ℚ) ≠ 0) ∧
      matchPercentage c1 c2 = (matchedLines c1 c2 : ℚ) / (totalLines c1 c2 : ℚ) * 100 := by
  have hne := splitNl_ne_nil c1
  have hlen : 0 < (splitNl c1).length := List.length_pos.mpr hne
  have htot : 0 < totalLines c1 c2 := by
    unfold totalLines
    show 0 < (lineMatchAux (splitNl c2) (splitNl c1) 0).length
    rw [lineMatchAux_length]
    exact hlen
  refine ⟨htot, hne, ?_, ?_⟩
  · exact_mod_cast Nat.pos_iff_ne_zero.mp htot
  · unfold matchPercentage
    rw [if_pos htot]

/-! ### Distribution bucketing -/

theorem distributionStep_sum (r : SimilarityRanges) (d : LineMatch) :
    (distributionStep r d).exact + (distributionStep r d).high
      + (distributionStep r d).medium + (distributionStep r d).low
      + (distributionStep r d).none
      = r.exact + r.high + r.medium + r.low + r.none + 1 := by
  unfold distributionStep
  split_ifs <;> simp <;> omega

theorem distribution_foldl_sum : ∀ (l : List LineMatch) (r : SimilarityRanges),
    (l.foldl distributionStep r).exact + (l.foldl distributionStep r).high
      + (l.foldl distributionStep r).medium + (l.foldl distributionStep r).low
      + (l.foldl distributionStep r).none
      = r.exact + r.high + r.medium + r.low + r.none + l.length := by
  intro l
  induction l with
  | nil => intro r; simp
  | cons d ds ih =>
    intro r
    rw [List.foldl_cons, ih (distributionStep r d), distributionStep_sum]
    simp only [List.length_cons]
    omega

theorem bucketMem_unique (s : ℚ) (h0 : 0 ≤ s) (h1 : s ≤ 1) :
    ∃! k : Fin 5, bucketMem s k := by
  by_cases e1 : (0.9 : ℚ) ≤ s
  · refine ⟨0, ⟨e1, h1⟩, ?_⟩
    intro k hk
    fin_cases k <;> simp only [bucketMem] at hk ⊢ <;> first | rfl | (exfalso; linarith [hk.1, hk.2]) | (exfalso; linarith [hk])
  · by_cases e2 : (0.7 : ℚ) ≤ s
    · refine ⟨1, ⟨e2, not_le.mp e1⟩, ?_⟩
      intro k hk
      fin_cases k <;> simp only [bucketMem] at hk ⊢ <;> first | rfl | (exfalso; linarith [hk.1, hk.2]) | (exfalso; linarith [hk])
    · by_cases e3 : (0.4 : ℚ) ≤ s
      · refine ⟨2, ⟨e3, not_le.mp e2⟩, ?_⟩
        intro k hk
        fin_cases k <;> simp only [bucketMem] at hk ⊢ <;> first | rfl | (exfalso; linarith [hk.1, hk.2]) | (exfalso; linarith [hk])
      · by_cases e4 : 0 < s
        · refine ⟨3, ⟨e4, not_le.mp e3⟩, ?_⟩
          intro k hk
          fin_cases k <;> simp only [bucketMem] at hk ⊢ <;> first | rfl | (exfalso; linarith [hk.1, hk.2]) | (exfalso; linarith [hk])
        · have hs0 : s = 0 := le_antisymm (not_lt.mp e4) h0
          refine ⟨4, hs0, ?_⟩
          intro k hk
          fin_cases k <;> simp only [bucketMem] at hk ⊢ <;> first | rfl | (exfalso; linarith [hk.1, hk.2]) | (exfalso; linarith [hk])

/-- C2: the similarity distribution puts every line-match record into exactly
one of the five buckets, and the five bucket counts sum to the number of
records, which is the line count of the first submission. -/
theorem similarityDistribution_spec (content1 content2 : List Char) :
    ((calculateSimilarityDistribution content1 content2).exact
      + (calculateSimilarityDistribution content1 content2).high
      + (calculateSimilarityDistribution content1 content2).medium
      + (calculateSimilarityDistribution content1 content2).low
      + (calculateSimilarityDistribution content1 content2).none
      = (calculateLineMatchData content1 content2).length) ∧
    (calculateLineMatchData content1 content2).length = (splitNl content1).length ∧
    ∀ r : LineMatch, r ∈ calculateLineMatchData content1 content2 →
      ∃! k : Fin 5, bucketMem r.similarity k := by
  refine ⟨?_, lineMatchAux_length _ _ 0, ?_⟩
  · have h := distribution_foldl_sum (calculateLineMatchData content1 content2) ⟨0, 0, 0, 0, 0⟩
    simpa using h
  · intro r hr
    have hb := lineMatchAux_mem_bounds (splitNl content2) (splitNl content1) 0 r hr
    exact bucketMem_unique r.similarity hb.1 hb.2

/-- Witness for C2 on a concrete pair of submissions. -/
theorem similarityDistribution_spec_witness :
    ((calculateSimilarityDistribution ['a', 'b', '\n', 'c', 'd'] ['a', 'b']).exact
      + (calculateSimilarityDistribution ['a', 'b', '\n', 'c', 'd'] ['a', 'b']).high
      + (calculateSimilarityDistribution ['a', 'b', '\n', 'c', 'd'] ['a', 'b']).medium
      + (calculateSimilarityDistribution ['a', 'b', '\n', 'c', 'd'] ['a', 'b']).low
      + (calculateSimilarityDistribution ['a', 'b', '\n', 'c', 'd'] ['a', 'b']).none = 2) ∧
    ∃! k : Fin 5, bucketMem
      (((calculateLineMatchData ['a', 'b', '\n', 'c', 'd'] ['a', 'b']).getD 0
        ⟨0, 0, false⟩).similarity) k := by
  have h := similarityDistribution_spec ['a', 'b', '\n', 'c', 'd'] ['a', 'b']
  constructor
  · rw [h.1]
    decide
  · apply h.2.2
    have hlen : 0 < (calculateLineMatchData ['a', 'b', '\n', 'c', 'd'] ['a', 'b']).length := by
      rw [h.2.1]
      decide
    rw [List.getD_eq_getElem _ _ hlen]
    exact List.getElem_mem hlen

/-! ### Direct line matching (phase 1 of highlightMatches) -/

theorem lineMatchesOther_iff (t1 : List Char) (L2 : List (List Char)) :
    lineMatchesOther t1 L2 = true ↔
      ∃ l2, l2 ∈ L2 ∧ (trimChars l2).length ≠ 0 ∧
        (0.8 : ℚ) ≤ calculateExactSimilarity t1 (trimChars l2) := by
  unfold lineMatchesOther
  rw [List.any_eq_true]
  constructor
  · rintro ⟨l2, hm, hcond⟩
    rw [Bool.and_eq_true] at hcond
    have hne : trimChars l2 ≠ [] := by
      intro hnil
      have h1 := hcond.1
      rw [hnil] at h1
      simp at h1
    exact ⟨l2, hm, fun hlen => hne (List.length_eq_zero.mp hlen),
      of_decide_eq_true hcond.2⟩
  · rintro ⟨l2, hm, hne, hsim⟩
    refine ⟨l2, hm, ?_⟩
    rw [Bool.and_eq_true]
    refine ⟨?_, decide_eq_true hsim⟩
    have : trimChars l2 ≠ [] := fun hc => hne (by rw [hc]; rfl)
    simp [this]

theorem directMatchAux_mem (L2 : List (List Char)) : ∀ (L : List (List Char)) (idx0 idx : ℕ),
    idx ∈ directMatchAux L2 L idx0 ↔
      ∃ k, k < L.length ∧ idx = idx0 + k ∧ (trimChars (L.getD k [])).length ≠ 0 ∧
        lineMatchesOther (trimChars (L.getD k [])) L2 = true := by
  intro L
  induction L with
  | nil => intro idx0 idx; simp [directMatchAux]
  | cons a as ih =>
    intro idx0 idx
    simp only [directMatchAux]
    by_cases he : (trimChars a).isEmpty = true
    · rw [if_pos he, ih (idx0 + 1) idx]
      constructor
      · rintro ⟨k, hk, hidx, hc1, hc2⟩
        refine ⟨k + 1, ?_, by omega, ?_, ?_⟩
        · simp only [List.length_cons]; omega
        · rw [List.getD_cons_succ]; exact hc1
        · rw [List.getD_cons_succ]; exact hc2
      · rintro ⟨k, hk, hidx, hc1, hc2⟩
        cases k with
        | zero =>
          exfalso
          rw [List.getD_cons_zero] at hc1
          have hnil : trimChars a = [] := List.isEmpty_iff.mp he
          exact hc1 (by rw [hnil]; rfl)
        | succ n =>
          rw [List.getD_cons_succ] at hc1 hc2
          refine ⟨n, ?_, by omega, hc1, hc2⟩
          simp only [List.length_cons] at hk
          omega
    · rw [if_neg he]
      have hane : (trimChars a).length ≠ 0 := by
        intro hlen
        exact he (by rw [List.length_eq_zero.mp hlen]; rfl)
      by_cases hm : lineMatchesOther (trimChars a) L2 = true
      · rw [if_pos hm, List.mem_cons, ih (idx0 + 1) idx]
        constructor
        · rintro (h | ⟨k, hk, hidx, hc1, hc2⟩)
          · subst h
            refine ⟨0, by simp, by omega, ?_, ?_⟩
            · rw [List.getD_cons_zero]; exact hane
            · rw [List.getD_cons_zero]; exact hm
          · refine ⟨k + 1, ?_, by omega, ?_, ?_⟩
            · simp only [List.length_cons]; omega
            · rw [List.getD_cons_succ]; exact hc1
            · rw [List.getD_cons_succ]; exact hc2
        · rintro ⟨k, hk, hidx, hc1, hc2⟩
          cases k with
          | zero => left; omega
          | succ n =>
            right
            rw [List.getD_cons_succ] at hc1 hc2
            refine ⟨n, ?_, by omega, hc1, hc2⟩
            simp only [List.length_cons] at hk
            omega
      · rw [if_neg hm, ih (idx0 + 1) idx]
        constructor
        · rintro ⟨k, hk, hidx, hc1, hc2⟩
          refine ⟨k + 1, ?_, by omega, ?_, ?_⟩
          · simp only [List.length_cons]; omega
          · rw [List.getD_cons_succ]; exact hc1
          · rw [List.getD_cons_succ]; exact hc2
        · rintro ⟨k, hk, hidx, hc1, hc2⟩
          cases k with
          | zero =>
            exfalso
            rw [List.getD_cons_zero] at hc2
            exact hm hc2
          | succ n =>
            rw [List.getD_cons_succ] at hc1 hc2
            refine ⟨n, ?_, by omega, hc1, hc2⟩
            simp only [List.length_cons] at hk
            omega

/-- C6: in phase 1 of the highlighter, a line index is recorded as plagiarized
exactly when the line is in range, its trimmed text is non-empty, and some
line of the other submission has non-empty trimmed text whose
exact-or-containment similarity with it is at least 0.8. -/
theorem directLineMatching_spec (text other : List Char) (idx : ℕ) :
    idx ∈ directPlagiarizedLines text other ↔
      (idx < (splitNl text).length ∧
        (trimChars ((splitNl text).getD idx [])).length ≠ 0 ∧
        ∃ l2, l2 ∈ splitNl other ∧ (trimChars l2).length ≠ 0 ∧
          (0.8 : ℚ) ≤ calculateExactSimilarity (trimChars ((splitNl text).getD idx []))
            (trimChars l2)) := by
  unfold directPlagiarizedLines
  rw [directMatchAux_mem (splitNl other) (splitNl text) 0 idx]
  constructor
  · rintro ⟨k, hk, hidx, hc1, hc2⟩
    have hik : idx = k := by omega
    subst hik
    exact ⟨hk, hc1, (lineMatchesOther_iff _ _).mp hc2⟩
  · rintro ⟨hlt, hc1, hex⟩
    exact ⟨idx, hlt, by omega, hc1, (lineMatchesOther_iff _ _).mpr hex⟩

/-- C1: the line-match computation yields one record per line of the first
submission, in order with 1-based indices; a whitespace-only line gets
similarity 0 and matched false but is still counted; a non-empty line stores
the maximum line similarity of its trimmed text against the non-empty trimmed
lines of the other submission (0 when there are none); and matched holds
exactly when some such opposing line reaches similarity 0.8, equivalently
when the stored maximum reaches 0.8. -/
theorem calculateLineMatchData_spec (content1 content2 : List Char) :
    (calculateLineMatchData content1 content2).length = (splitNl content1).length ∧
    ∀ i : ℕ, i < (splitNl content1).length →
      ∀ r : LineMatch, r = (calculateLineMatchData content1 content2).getD i ⟨0, 0, false⟩ →
      ∀ t1 : List Char, t1 = trimChars ((splitNl content1).getD i []) →
      (r.line = i + 1 ∧
        (t1.length = 0 → r.similarity = 0 ∧ r.matched = false) ∧
        (t1.length ≠ 0 →
          (∀ l2, l2 ∈ splitNl content2 → (trimChars l2).length ≠ 0 →
              calculateLineSimilarity t1 (trimChars l2) ≤ r.similarity) ∧
          (r.similarity = 0 ∨ ∃ l2, l2 ∈ splitNl content2 ∧ (trimChars l2).length ≠ 0 ∧
              calculateLineSimilarity t1 (trimChars l2) = r.similarity) ∧
          (r.matched = true ↔ ∃ l2, l2 ∈ splitNl content2 ∧ (trimChars l2).length ≠ 0 ∧
              (0.8 : ℚ) ≤ calculateLineSimilarity t1 (trimChars l2)) ∧
          (r.matched = true ↔ (0.8 : ℚ) ≤ r.similarity))) := by
  refine ⟨lineMatchAux_length _ _ 0, ?_⟩
  intro i hi r hr t1 ht1
  subst ht1
  have hr2 : r = recordFor (splitNl content2) ((splitNl content1).getD i []) i := by
    rw [hr]
    show (lineMatchAux (splitNl content2) (splitNl content1) 0).getD i ⟨0, 0, false⟩ = _
    rw [lineMatchAux_getD (splitNl content2) (splitNl content1) 0 i hi, Nat.zero_add]
  subst hr2
  refine ⟨recordFor_line _ _ _, recordFor_empty _ _ _, ?_⟩
  intro hne
  have hsim := (recordFor_scan (splitNl content2) ((splitNl content1).getD i []) i hne).1
  have hmat := (recordFor_scan (splitNl content2) ((splitNl content1).getD i []) i hne).2
  have hz1 : ((0 : ℚ), false).1 = 0 := rfl
  have hz2 : ((0 : ℚ), false).2 = false := rfl
  refine ⟨?_, ?_, ?_, ?_⟩
  · intro l2 hm hn
    rw [hsim]
    exact lineScan_foldl_fst_ub _ _ (0, false) l2 hm hn
  · rw [hsim]
    rcases lineScan_foldl_fst_cases (trimChars ((splitNl content1).getD i []))
        (splitNl content2) (0, false) with h | ⟨l2, hm, hn, he⟩
    · left
      rw [h, hz1]
    · right
      exact ⟨l2, hm, hn, he.symm⟩
  · rw [hmat, lineScan_foldl_snd, hz2]
    constructor
    · rintro (h | h)
      · exact absurd h Bool.false_ne_true
      · exact h
    · intro h
      exact Or.inr h
  · rw [hmat, hsim, lineScan_foldl_snd, hz2]
    constructor
    · rintro (h | ⟨l2, hm, hn, hs⟩)
      · exact absurd h Bool.false_ne_true
      · exact le_trans hs (lineScan_foldl_fst_ub _ _ (0, false) l2 hm hn)
    · intro h
      rcases lineScan_foldl_fst_cases (trimChars ((splitNl content1).getD i []))
          (splitNl content2) (0, false) with hc | ⟨l2, hm, hn, he⟩
      · rw [hc, hz1] at h
        exact absurd h (by norm_num)
      · refine Or.inr ⟨l2, hm, hn, ?_⟩
        rw [← he]
        exact h

/-- Witness for C1 on two identical one-line submissions. -/
theorem calculateLineMatchData_spec_witness :
    (calculateLineMatchData ['a', 'b'] ['a', 'b']).length = 1 ∧
    ((calculateLineMatchData ['a', 'b'] ['a', 'b']).getD 0 ⟨0, 0, false⟩).line = 1 ∧
    (((calculateLineMatchData ['a', 'b'] ['a', 'b']).getD 0 ⟨0, 0, false⟩).matched = true ↔
      (0.8 : ℚ) ≤ ((calculateLineMatchData ['a', 'b'] ['a', 'b']).getD 0
        ⟨0, 0, false⟩).similarity) := by
  have h := calculateLineMatchData_spec ['a', 'b'] ['a', 'b']
  refine ⟨?_, ?_, ?_⟩
  · rw [h.1]
    rfl
  · exact (h.2 0 (by decide) _ rfl _ rfl).1
  · exact ((h.2 0 (by decide) _ rfl _ rfl).2.2 (by decide)).2.2.2

end Plagiarism
